import Mathlib

/-!
Verification development for the WhatsApp transcript parser
(`src/lib/message-parser.ts`).

The parser is embedded shallowly:

* strings are `List Char` (the JavaScript string operations used by the
  source — `split`, `trim`, `toLowerCase`, `includes`, regular-expression
  matching — are modelled character-by-character below);
* a JavaScript `Date` is its time value, modelled as milliseconds since
  the epoch (`Int`), in a fixed local time zone with no DST, which is the
  granularity at which the source manipulates dates;
* the source's four regular expressions are embedded via a small
  backtracking matcher whose alternatives are enumerated in the engine's
  priority order (leftmost start position first, greedy quantifiers
  longest-first), so the head of the result list is exactly the match
  JavaScript's `String.prototype.match` returns;
* `new Date()` ("now", the initial rolling reference timestamp) is an
  explicit parameter `now` of `parseWhatsAppMessages`.
-/

/-! ### JavaScript character classes and string primitives -/

/-- The set of characters trimmed by `String.prototype.trim` and matched by
the regular-expression class `\s` (ECMAScript WhiteSpace ∪ LineTerminator). -/
def jsWs (c : Char) : Bool :=
  (9 ≤ c.toNat && c.toNat ≤ 13) || c.toNat == 32 || c.toNat == 160 ||
  c.toNat == 5760 || (8192 ≤ c.toNat && c.toNat ≤ 8202) ||
  c.toNat == 8232 || c.toNat == 8233 || c.toNat == 8239 ||
  c.toNat == 8287 || c.toNat == 12288 || c.toNat == 65279

/-- The regular-expression class `\d`. -/
def isDigit (c : Char) : Bool := 48 ≤ c.toNat && c.toNat ≤ 57

/-- The regular-expression class `.` (anything but a line terminator). -/
def dotChar (c : Char) : Bool :=
  !(c.toNat == 10 || c.toNat == 13 || c.toNat == 8232 || c.toNat == 8233)

/-- `String.prototype.trim`: drop leading and trailing `jsWs` characters. -/
def jsTrim (s : List Char) : List Char :=
  ((s.dropWhile jsWs).reverse.dropWhile jsWs).reverse

/-- `String.prototype.split(sep)` for a one-character separator; keeps empty
segments, and `split` of the empty string is `[""]`, as in JavaScript. -/
def splitOnChar (sep : Char) : List Char → List (List Char)
  | [] => [[]]
  | c :: rest =>
    if c = sep then [] :: splitOnChar sep rest
    else
      match splitOnChar sep rest with
      | [] => [[c]]
      | l :: ls => (c :: l) :: ls

/-- The uppercase/lowercase pairs of Basic Latin and Latin-1; this is the
fragment of `String.prototype.toLowerCase` relevant to the source (it covers
every character of the media indicator list; characters outside these ranges
are modelled as unchanged). -/
def upperLowerPairs : List (Char × Char) :=
  [('A', 'a'), ('B', 'b'), ('C', 'c'), ('D', 'd'), ('E', 'e'), ('F', 'f'),
   ('G', 'g'), ('H', 'h'), ('I', 'i'), ('J', 'j'), ('K', 'k'), ('L', 'l'),
   ('M', 'm'), ('N', 'n'), ('O', 'o'), ('P', 'p'), ('Q', 'q'), ('R', 'r'),
   ('S', 's'), ('T', 't'), ('U', 'u'), ('V', 'v'), ('W', 'w'), ('X', 'x'),
   ('Y', 'y'), ('Z', 'z'),
   ('À', 'à'), ('Á', 'á'), ('Â', 'â'), ('Ã', 'ã'), ('Ä', 'ä'), ('Å', 'å'),
   ('Æ', 'æ'), ('Ç', 'ç'), ('È', 'è'), ('É', 'é'), ('Ê', 'ê'), ('Ë', 'ë'),
   ('Ì', 'ì'), ('Í', 'í'), ('Î', 'î'), ('Ï', 'ï'), ('Ð', 'ð'), ('Ñ', 'ñ'),
   ('Ò', 'ò'), ('Ó', 'ó'), ('Ô', 'ô'), ('Õ', 'õ'), ('Ö', 'ö'), ('Ø', 'ø'),
   ('Ù', 'ù'), ('Ú', 'ú'), ('Û', 'û'), ('Ü', 'ü'), ('Ý', 'ý'), ('Þ', 'þ')]

/-- `toLowerCase` on one character (see `upperLowerPairs`). -/
def jsToLower (c : Char) : Char :=
  match upperLowerPairs.find? (fun q => q.1 == c) with
  | some q => q.2
  | none => c

/-- `String.prototype.toLowerCase`. -/
def lowerStr (s : List Char) : List Char := s.map jsToLower

/-- Does `hay` start with `needle`? -/
def startsWithList (needle hay : List Char) : Bool :=
  match needle, hay with
  | [], _ => true
  | _ :: _, [] => false
  | c :: n, d :: h => c == d && startsWithList n h

/-- `String.prototype.includes`: contiguous-substring test. -/
def containsSub (needle hay : List Char) : Bool :=
  startsWithList needle hay ||
    match hay with
    | [] => false
    | _ :: t => containsSub needle t

/-- `Number(s)` for the all-digit capture strings produced by the patterns
(`Number` on such strings is plain decimal evaluation). -/
def digitsToNat (s : List Char) : Nat :=
  s.foldl (fun n c => n * 10 + (c.toNat - 48)) 0

/-! ### JavaScript Date model

A `Date` is its time value in milliseconds (an `Int`), in one fixed local
time zone with no DST transitions; day boundaries fall at multiples of
86400000. -/

/-- Day number of the civil date `y-m-d` (month `m` is 1-based, `1 ≤ m ≤ 12`
at every use site; `d` may be out of range and simply offsets the result),
relative to 1970-01-01, following the standard civil-from-days arithmetic
used by ECMAScript `MakeDay`. -/
def daysFromCivil (y m d : Int) : Int :=
  let y' := if m ≤ 2 then y - 1 else y
  let era := y' / 400
  let yoe := y' - era * 400
  let mp := (m + 9) % 12
  let doy := (153 * mp + 2) / 5 + d - 1
  let doe := yoe * 365 + yoe / 4 - yoe / 100 + doy
  era * 146097 + doe - 719468

/-- `new Date(y, m, d, h, mi)` (seconds and milliseconds zero): the
ECMAScript constructor maps a year argument between 0 and 99 to 1900 + year,
normalises the 0-based month argument by euclidean division, and passes an
out-of-range day/hour/minute straight into the time-value arithmetic. -/
def jsMkDate (y m d h mi : Int) : Int :=
  let yy := if 0 ≤ y ∧ y ≤ 99 then y + 1900 else y
  let ym := yy + m / 12
  let mn := m % 12
  daysFromCivil ym (mn + 1) d * 86400000 + h * 3600000 + mi * 60000

/-- `date.setHours(h, mi, 0, 0)` on a copy of `t`: keep the calendar day of
`t` and overlay the given hour and minute, zeroing seconds and
sub-seconds (an out-of-range hour or minute rolls over, as in `MakeTime`). -/
def jsSetHours (t h mi : Int) : Int :=
  t / 86400000 * 86400000 + h * 3600000 + mi * 60000

/-! ### The regular-expression engine

`RxMatcher α` sends an input suffix to the list of `(result, rest)` pairs of
every way the pattern can match a prefix of it, ordered by the backtracking
priority of a JavaScript regular expression (greedy quantifiers yield the
longest alternative first).  The head of the list is therefore the match the
JavaScript engine commits to. -/

/-- Nondeterministic prefix matcher; results are in priority order. -/
abbrev RxMatcher (α : Type) := List Char → List (α × List Char)

instance : Monad RxMatcher where
  pure a := fun s => [(a, s)]
  bind p f := fun s => (p s).flatMap (fun r => f r.1 r.2)

/-- Length of the maximal leading run of characters satisfying `p`. -/
def leadCount (p : Char → Bool) : List Char → Nat
  | [] => 0
  | c :: rest => if p c then leadCount p rest + 1 else 0

/-- Greedy bounded repetition of a one-character class: all consumptions of
between `lo` and `hi` (unbounded when `none`) leading characters of class
`p`, longest first.  Captures the consumed characters. -/
def rxRep (p : Char → Bool) (lo : Nat) (hi : Option Nat) : RxMatcher (List Char) :=
  fun s =>
    let cap := leadCount p s
    let m := match hi with
      | none => cap
      | some h => min h cap
    if lo ≤ m then
      (List.range (m + 1 - lo)).map (fun i => (s.take (m - i), s.drop (m - i)))
    else []

/-- Match one literal character. -/
def rxChar (c : Char) : RxMatcher Unit := fun s =>
  match s with
  | d :: rest => if d = c then [((), rest)] else []
  | [] => []

/-- First result of an anchored (`^`) pattern. -/
def rxFirst {α : Type} (p : RxMatcher α) (s : List Char) : Option α :=
  match p s with
  | r :: _ => some r.1
  | [] => none

/-- Unanchored search: try every start position from the left and commit to
the first position at which the pattern matches, as `String.prototype.match`
does for a non-global, non-anchored regular expression. -/
def rxSearch {α : Type} (p : RxMatcher α) : List Char → Option α
  | [] =>
    (match p [] with
     | r :: _ => some r.1
     | [] => none)
  | s@(_ :: rest) =>
    (match p s with
     | r :: _ => some r.1
     | [] => rxSearch p rest)

/-! ### The four message patterns (`messagePatterns` in the source) -/

/-- Pattern 1, `\[(\d{1,2}:\d{2}),\s*(\d{1,2}\/\d{1,2}\/\d{4})\]\s*([^:]+):\s*(.*)`:
yields (time, date, sender, content). -/
def p1core : RxMatcher (List Char × List Char × List Char × List Char) := do
  _ ← rxChar '['
  let hh ← rxRep isDigit 1 (some 2)
  _ ← rxChar ':'
  let mm ← rxRep isDigit 2 (some 2)
  _ ← rxChar ','
  _ ← rxRep jsWs 0 none
  let dd ← rxRep isDigit 1 (some 2)
  _ ← rxChar '/'
  let mo ← rxRep isDigit 1 (some 2)
  _ ← rxChar '/'
  let yy ← rxRep isDigit 4 (some 4)
  _ ← rxChar ']'
  _ ← rxRep jsWs 0 none
  let snd ← rxRep (fun c => c != ':') 1 none
  _ ← rxChar ':'
  _ ← rxRep jsWs 0 none
  let cnt ← rxRep dotChar 0 none
  pure (hh ++ ':' :: mm, dd ++ '/' :: mo ++ '/' :: yy, snd, cnt)

/-- Pattern 2, `(\d{1,2}:\d{2})\s+([^:]+):\s*(.*)`:
yields (time, sender, content). -/
def p2core : RxMatcher (List Char × List Char × List Char) := do
  let hh ← rxRep isDigit 1 (some 2)
  _ ← rxChar ':'
  let mm ← rxRep isDigit 2 (some 2)
  _ ← rxRep jsWs 1 none
  let snd ← rxRep (fun c => c != ':') 1 none
  _ ← rxChar ':'
  _ ← rxRep jsWs 0 none
  let cnt ← rxRep dotChar 0 none
  pure (hh ++ ':' :: mm, snd, cnt)

/-- Pattern 3, `^([^:]+)\s+(\d{1,2}:\d{2})\s+(.*)`:
yields (sender, time, content). -/
def p3core : RxMatcher (List Char × List Char × List Char) := do
  let snd ← rxRep (fun c => c != ':') 1 none
  _ ← rxRep jsWs 1 none
  let hh ← rxRep isDigit 1 (some 2)
  _ ← rxChar ':'
  let mm ← rxRep isDigit 2 (some 2)
  _ ← rxRep jsWs 1 none
  let cnt ← rxRep dotChar 0 none
  pure (snd, hh ++ ':' :: mm, cnt)

/-- Pattern 4, `^(\d{1,2}:\d{2})\s+(.*)`: yields (time, content). -/
def p4core : RxMatcher (List Char × List Char) := do
  let hh ← rxRep isDigit 1 (some 2)
  _ ← rxChar ':'
  let mm ← rxRep isDigit 2 (some 2)
  _ ← rxRep jsWs 1 none
  let cnt ← rxRep dotChar 0 none
  pure (hh ++ ':' :: mm, cnt)

/-- `line.match(messagePatterns[0])` (unanchored). -/
def matchPattern1 (line : List Char) :
    Option (List Char × List Char × List Char × List Char) :=
  rxSearch p1core line

/-- `line.match(messagePatterns[1])` (unanchored). -/
def matchPattern2 (line : List Char) : Option (List Char × List Char × List Char) :=
  rxSearch p2core line

/-- `line.match(messagePatterns[2])` (anchored at `^`). -/
def matchPattern3 (line : List Char) : Option (List Char × List Char × List Char) :=
  rxFirst p3core line

/-- `line.match(messagePatterns[3])` (anchored at `^`). -/
def matchPattern4 (line : List Char) : Option (List Char × List Char) :=
  rxFirst p4core line

/-! ### The data model and the parser -/

/-- Output unit of the parser (`WhatsAppMessage` in the source); during
accumulation `mediaType` is absent (`none`), the final pass fills it in for
media messages. -/
structure WhatsAppMessage where
  timestamp : Int
  sender : List Char
  content : List Char
  isMedia : Bool
  mediaType : Option (List Char)
deriving DecidableEq

/-- Result of trying the four patterns on one line, first match wins
(the tagged per-pattern destructuring in the source's match loop). -/
inductive LineMatch where
  | fullTimestamp : List Char → List Char → List Char → List Char → LineMatch
  | timeAndSender : List Char → List Char → List Char → LineMatch
  | senderAndTime : List Char → List Char → List Char → LineMatch
  | timeOnly : List Char → List Char → LineMatch
  | noMatch : LineMatch
deriving DecidableEq

/-- Try `messagePatterns` in order on one line; the first match wins. -/
def classifyLine (line : List Char) : LineMatch :=
  match matchPattern1 line with
  | some (t, d, s, c) => .fullTimestamp t d s c
  | none =>
    match matchPattern2 line with
    | some (t, s, c) => .timeAndSender t s c
    | none =>
      match matchPattern3 line with
      | some (s, t, c) => .senderAndTime s t c
      | none =>
        match matchPattern4 line with
        | some (t, c) => .timeOnly t c
        | none => .noMatch

/-- `parseTimestamp(time, date)`: split the captures and build
`new Date(year, month - 1, day, hours, minutes)`.  The capture groups always
contain exactly one `:` and exactly two `/`, so the `getD` defaults are never
used when called from the parser. -/
def parseTimestamp (time date : List Char) : Int :=
  let tp := splitOnChar ':' time
  let dp := splitOnChar '/' date
  jsMkDate (digitsToNat (dp.getD 2 []))
    ((digitsToNat (dp.getD 1 []) : Int) - 1)
    (digitsToNat (dp.getD 0 []))
    (digitsToNat (tp.getD 0 []))
    (digitsToNat (tp.getD 1 []))

/-- `parseTimeOnly(time, referenceDate)`: copy the reference date and
`setHours(hours, minutes, 0, 0)` onto it.  The time capture always contains
exactly one `:`, so the `getD` defaults are never used from the parser. -/
def parseTimeOnly (time : List Char) (referenceDate : Int) : Int :=
  let tp := splitOnChar ':' time
  jsSetHours referenceDate (digitsToNat (tp.getD 0 [])) (digitsToNat (tp.getD 1 []))

/-- `mediaIndicators` in `checkIfMedia`. -/
def mediaIndicators : List (List Char) :=
  ["Photo".toList, "Foto".toList, "Image".toList, "Imagem".toList,
   "Video".toList, "Vídeo".toList,
   "Audio".toList, "Áudio".toList,
   "Document".toList, "Documento".toList,
   "GIF".toList,
   "Sticker".toList, "Figurinha".toList,
   "<Media omitted>".toList, "<Mídia oculta>".toList,
   ".jpg".toList, ".png".toList, ".mp4".toList, ".pdf".toList, ".docx".toList]

/-- `checkIfMedia(content)`: does the lowercased content contain any
lowercased indicator? -/
def checkIfMedia (content : List Char) : Bool :=
  mediaIndicators.any (fun ind => containsSub (lowerStr ind) (lowerStr content))

/-- `detectMediaType(content)`: keyword families checked in a fixed order;
every fall-through returns the string `unknown` (the declared
`string | undefined` return type notwithstanding, no path returns
`undefined`). -/
def detectMediaType (content : List Char) : List Char :=
  let lc := lowerStr content
  if containsSub "photo".toList lc || containsSub "foto".toList lc ||
     containsSub "image".toList lc || containsSub "imagem".toList lc ||
     containsSub ".jpg".toList lc || containsSub ".png".toList lc then
    "image".toList
  else if containsSub "video".toList lc || containsSub "vídeo".toList lc ||
     containsSub ".mp4".toList lc then
    "video".toList
  else if containsSub "audio".toList lc || containsSub "áudio".toList lc ||
     containsSub ".mp3".toList lc || containsSub ".ogg".toList lc then
    "audio".toList
  else if containsSub "document".toList lc || containsSub "documento".toList lc ||
     containsSub ".pdf".toList lc || containsSub ".docx".toList lc then
    "document".toList
  else if containsSub "gif".toList lc then
    "gif".toList
  else if containsSub "sticker".toList lc || containsSub "figurinha".toList lc then
    "sticker".toList
  else
    "unknown".toList

/-- Mutable state of the parse loop: the output so far, the in-progress
message, and the rolling reference timestamp. -/
structure ParseState where
  messages : List WhatsAppMessage
  currentMessage : Option WhatsAppMessage
  currentTimestamp : Int

/-- `if (currentMessage && currentMessage.content) messages.push(currentMessage)` —
the flush performed before starting a new message and at end of input. -/
def flushIfContent (msgs : List WhatsAppMessage) (cur : Option WhatsAppMessage) :
    List WhatsAppMessage :=
  match cur with
  | none => msgs
  | some m => if m.content.isEmpty then msgs else msgs ++ [m]

/-- The body of the source's `for (const line of lines)` loop. -/
def stepLine (st : ParseState) (line : List Char) : ParseState :=
  match classifyLine line with
  | .fullTimestamp time date sender content =>
    let ts := parseTimestamp time date
    { messages := flushIfContent st.messages st.currentMessage
      currentMessage := some
        { timestamp := ts, sender := jsTrim sender, content := jsTrim content
          isMedia := checkIfMedia content, mediaType := none }
      currentTimestamp := ts }
  | .timeAndSender time sender content =>
    let ts := parseTimeOnly time st.currentTimestamp
    { messages := flushIfContent st.messages st.currentMessage
      currentMessage := some
        { timestamp := ts, sender := jsTrim sender, content := jsTrim content
          isMedia := checkIfMedia content, mediaType := none }
      currentTimestamp := ts }
  | .senderAndTime sender time content =>
    let ts := parseTimeOnly time st.currentTimestamp
    { messages := flushIfContent st.messages st.currentMessage
      currentMessage := some
        { timestamp := ts, sender := jsTrim sender, content := jsTrim content
          isMedia := checkIfMedia content, mediaType := none }
      currentTimestamp := ts }
  | .timeOnly time content =>
    let ts := parseTimeOnly time st.currentTimestamp
    { messages := flushIfContent st.messages st.currentMessage
      currentMessage := some
        { timestamp := ts, sender := "Unknown".toList, content := jsTrim content
          isMedia := checkIfMedia content, mediaType := none }
      currentTimestamp := ts }
  | .noMatch =>
    match st.currentMessage with
    | some m =>
      { st with currentMessage := some { m with content := m.content ++ ' ' :: jsTrim line } }
    | none => st

/-- `parseWhatsAppMessages(rawText)`.  `now` is the value of `new Date()` at
entry (the initial rolling reference timestamp). -/
def parseWhatsAppMessages (now : Int) (rawText : List Char) : List WhatsAppMessage :=
  if (jsTrim rawText).isEmpty then []
  else
    let lines := (splitOnChar '\n' rawText).filter (fun l => !(jsTrim l).isEmpty)
    let final := lines.foldl stepLine { messages := [], currentMessage := none, currentTimestamp := now }
    let msgs := flushIfContent final.messages final.currentMessage
    msgs.map (fun m =>
      if m.isMedia then { m with mediaType := some (detectMediaType m.content) } else m)

/-- `filterMessagesByTime(messages, startTime, endTime)`. -/
def filterMessagesByTime (messages : List WhatsAppMessage)
    (startTime endTime : Int) : List WhatsAppMessage :=
  messages.filter (fun msg => startTime ≤ msg.timestamp && msg.timestamp ≤ endTime)

/-- Follows the spec's words, for the refinement comparison of claim C8:
`resolveFull` building the timestamp from the literal year (no expansion of
any kind), the 1-based day, and the 1-based month converted to the library's
0-based convention, with out-of-range components passed through to the date
arithmetic. -/
def specResolveFullLiteralYear (y mo d h mi : Int) : Int :=
  let ym := y + (mo - 1) / 12
  let mn := (mo - 1) % 12
  daysFromCivil ym (mn + 1) d * 86400000 + h * 3600000 + mi * 60000

/-- Day number (multiples of 86400000 ms) containing local time `t`:
the calendar-day component of a date value. -/
def jsDayNumber (t : Int) : Int := t / 86400000

/-- Origin invariant of an accumulated message: its content is the trimmed
content capture of its matched line followed by the trimmed continuation
lines each preceded by one space, its media flag was computed from the raw
content capture of the matched line, and its media type is not yet set. -/
def GoodMsg (m : WhatsAppMessage) : Prop :=
  ∃ (c0 : List Char) (cs : List (List Char)),
    m.content = jsTrim c0 ++ (cs.map (fun l => ' ' :: jsTrim l)).flatten
    ∧ (∀ l ∈ cs, jsTrim l ≠ [])
    ∧ m.isMedia = checkIfMedia c0
    ∧ m.mediaType = none

/-- Nonempty with a non-whitespace first character (applied to a list and to
its reverse, this says a needle survives trimming of its haystack). -/
def headNonWs : List Char → Bool
  | [] => false
  | c :: _ => !jsWs c

/-! ## Helper lemmas about the string primitives -/

theorem startsWithList_iff (n h : List Char) :
    startsWithList n h = true ↔ ∃ t, h = n ++ t := by
  induction n generalizing h with
  | nil => simp [startsWithList]
  | cons c n ih =>
    cases h with
    | nil => simp [startsWithList]
    | cons d t =>
      simp only [startsWithList, Bool.and_eq_true, beq_iff_eq, ih, List.cons_append,
        List.cons.injEq]
      constructor
      · rintro ⟨rfl, u, rfl⟩
        exact ⟨u, rfl, rfl⟩
      · rintro ⟨u, rfl, rfl⟩
        exact ⟨rfl, u, rfl⟩

theorem containsSub_iff (n h : List Char) :
    containsSub n h = true ↔ ∃ a b, h = a ++ n ++ b := by
  induction h with
  | nil =>
    simp only [containsSub, Bool.or_false, startsWithList_iff]
    constructor
    · rintro ⟨t, ht⟩
      exact ⟨[], t, by simpa using ht⟩
    · rintro ⟨a, b, hab⟩
      have ha : a = [] := by
        cases a with
        | nil => rfl
        | cons x xs => simp at hab
      subst ha
      exact ⟨b, by simpa using hab⟩
  | cons d t ih =>
    simp only [containsSub, Bool.or_eq_true, startsWithList_iff, ih]
    constructor
    · rintro (⟨u, hu⟩ | ⟨a, b, hab⟩)
      · exact ⟨[], u, by simpa using hu⟩
      · exact ⟨d :: a, b, by simp [hab]⟩
    · rintro ⟨a, b, hab⟩
      cases a with
      | nil =>
        exact Or.inl ⟨b, by simpa using hab⟩
      | cons x xs =>
        simp only [List.cons_append, List.cons.injEq] at hab
        exact Or.inr ⟨xs, b, hab.2⟩

theorem containsSub_append_right {n x : List Char} (y : List Char)
    (hx : containsSub n x = true) : containsSub n (x ++ y) = true := by
  rcases (containsSub_iff n x).1 hx with ⟨a, b, rfl⟩
  exact (containsSub_iff n (a ++ n ++ b ++ y)).2 ⟨a, b ++ y, by simp⟩

theorem dropWhile_head_false {p : Char → Bool} {l : List Char} {c : Char}
    {t : List Char} (h : l.dropWhile p = c :: t) : p c = false := by
  induction l with
  | nil => simp at h
  | cons x xs ih =>
    rw [List.dropWhile_cons] at h
    by_cases hx : p x = true
    · exact ih (by simpa [hx] using h)
    · rw [if_neg hx] at h
      cases h
      simpa using hx

theorem dropWhile_keeps {p : Char → Bool} {n : List Char} {c : Char} {t : List Char}
    (hn : n = c :: t) (hc : p c = false) :
    ∀ a b : List Char, ∃ a' b', (a ++ n ++ b).dropWhile p = a' ++ n ++ b'
  | [], b => ⟨[], b, by subst hn; simp [List.dropWhile_cons, hc]⟩
  | x :: a, b => by
    rcases dropWhile_keeps hn hc a b with ⟨a', b', ih⟩
    by_cases hx : p x = true
    · refine ⟨a', b', ?_⟩
      rw [List.cons_append, List.cons_append, List.dropWhile_cons, if_pos hx]
      exact ih
    · refine ⟨x :: a, b, ?_⟩
      rw [List.cons_append, List.cons_append, List.dropWhile_cons, if_neg hx]

theorem jsTrim_keeps_needle {n l : List Char}
    (hh : ∃ c t, n = c :: t ∧ jsWs c = false)
    (hl : ∃ i d, n = i ++ [d] ∧ jsWs d = false)
    (h : ∃ a b, l = a ++ n ++ b) :
    ∃ a b, jsTrim l = a ++ n ++ b := by
  rcases hh with ⟨c, t, hn, hc⟩
  rcases hl with ⟨i, d, hnd, hd⟩
  rcases h with ⟨a, b, rfl⟩
  unfold jsTrim
  rcases dropWhile_keeps hn hc a b with ⟨a1, b1, h1⟩
  rw [h1]
  have hnrev : n.reverse = d :: i.reverse := by rw [hnd]; simp
  have hrev : (a1 ++ n ++ b1).reverse = b1.reverse ++ n.reverse ++ a1.reverse := by
    simp
  rw [hrev]
  rcases dropWhile_keeps hnrev hd b1.reverse a1.reverse with ⟨a2, b2, h2⟩
  rw [h2]
  exact ⟨b2.reverse, a2.reverse, by simp⟩

theorem jsTrim_eq_nil_iff (l : List Char) :
    jsTrim l = [] ↔ ∀ c ∈ l, jsWs c = true := by
  unfold jsTrim
  rw [List.reverse_eq_nil_iff, List.dropWhile_eq_nil_iff]
  constructor
  · intro h c hc
    by_cases hws : jsWs c = true
    · exact hws
    · exfalso
      rcases (List.mem_append.1 ((List.takeWhile_append_dropWhile jsWs l).symm ▸ hc)) with ht | hd
      · exact hws (List.mem_takeWhile_imp ht)
      · exact hws (h c (List.mem_reverse.2 hd))
  · intro h c hc
    have h1 : c ∈ l.dropWhile jsWs := List.mem_reverse.1 hc
    exact h c (List.Sublist.mem h1 (List.dropWhile_sublist jsWs))

theorem jsTrim_head {l : List Char} (h : jsTrim l ≠ []) :
    ∃ c t, jsTrim l = c :: t ∧ jsWs c = false := by
  cases hj : jsTrim l with
  | nil => exact absurd hj h
  | cons c t =>
    refine ⟨c, t, rfl, ?_⟩
    have hA : l.dropWhile jsWs
        = jsTrim l ++ ((l.dropWhile jsWs).reverse.takeWhile jsWs).reverse := by
      unfold jsTrim
      rw [← List.reverse_append, List.takeWhile_append_dropWhile, List.reverse_reverse]
    rw [hj, List.cons_append] at hA
    exact dropWhile_head_false hA

theorem jsTrim_last {l : List Char} (h : jsTrim l ≠ []) :
    ∃ i d, jsTrim l = i ++ [d] ∧ jsWs d = false := by
  have h2 : (l.dropWhile jsWs).reverse.dropWhile jsWs ≠ [] := by
    intro hnil
    exact h (by unfold jsTrim; rw [hnil]; rfl)
  cases hd : (l.dropWhile jsWs).reverse.dropWhile jsWs with
  | nil => exact absurd hd h2
  | cons d r =>
    refine ⟨r.reverse, d, ?_, dropWhile_head_false hd⟩
    unfold jsTrim
    rw [hd]
    simp

theorem jsTrim_eq_self {l : List Char}
    (hh : ∃ c t, l = c :: t ∧ jsWs c = false)
    (hl : ∃ i d, l = i ++ [d] ∧ jsWs d = false) : jsTrim l = l := by
  rcases hh with ⟨c, t, rfl, hc⟩
  rcases hl with ⟨i, d, hd1, hd⟩
  unfold jsTrim
  rw [List.dropWhile_cons, if_neg (by simp [hc])]
  have hrev : (c :: t).reverse = d :: i.reverse := by rw [hd1]; simp
  rw [hrev, List.dropWhile_cons, if_neg (by simp [hd]), ← hrev, List.reverse_reverse]

theorem ws_toLower (c : Char) : jsWs (jsToLower c) = jsWs c := by
  unfold jsToLower
  cases hf : upperLowerPairs.find? (fun q => q.1 == c) with
  | none => rfl
  | some q =>
    have hmem : q ∈ upperLowerPairs := List.mem_of_find?_eq_some hf
    have hq : q.1 = c := by simpa using List.find?_some hf
    have hall : ∀ r ∈ upperLowerPairs, jsWs r.1 = false ∧ jsWs r.2 = false := by decide
    rw [(hall q hmem).2, ← hq, (hall q hmem).1]

theorem dropWhile_lower (l : List Char) :
    (l.map jsToLower).dropWhile jsWs = (l.dropWhile jsWs).map jsToLower := by
  induction l with
  | nil => simp
  | cons c t ih =>
    simp only [List.map_cons, List.dropWhile_cons, ws_toLower]
    by_cases hc : jsWs c = true
    · simp [hc, ih]
    · simp [hc]

theorem jsTrim_lower (l : List Char) : jsTrim (lowerStr l) = lowerStr (jsTrim l) := by
  unfold jsTrim lowerStr
  rw [dropWhile_lower, ← List.map_reverse, dropWhile_lower, List.map_reverse]

theorem jsTrim_ne_nil_of_mem {l : List Char} {c : Char}
    (hc : c ∈ l) (hws : jsWs c = false) : jsTrim l ≠ [] := by
  intro h
  have := (jsTrim_eq_nil_iff l).1 h c hc
  simp [hws] at this

/-! ## Helper lemmas about the accumulator -/

theorem mem_flushIfContent {msgs : List WhatsAppMessage} {cur : Option WhatsAppMessage}
    {m : WhatsAppMessage}
    (h1 : ∀ m' ∈ msgs, GoodMsg m' ∧ m'.content ≠ [])
    (h2 : ∀ m', cur = some m' → GoodMsg m')
    (hm : m ∈ flushIfContent msgs cur) : GoodMsg m ∧ m.content ≠ [] := by
  unfold flushIfContent at hm
  cases cur with
  | none => exact h1 m hm
  | some c =>
    dsimp only at hm
    by_cases hc : c.content.isEmpty = true
    · rw [if_pos hc] at hm
      exact h1 m hm
    · rw [if_neg hc] at hm
      rcases List.mem_append.1 hm with h | h
      · exact h1 m h
      · have hmc : m = c := by simpa using h
        subst hmc
        exact ⟨h2 m rfl, fun hnil => hc (by simp [List.isEmpty_iff, hnil])⟩

theorem goodMsg_mk (ts : Int) (snd c : List Char) :
    GoodMsg ⟨ts, snd, jsTrim c, checkIfMedia c, none⟩ :=
  ⟨c, [], by simp, by simp, rfl, rfl⟩

theorem goodMsg_append {m : WhatsAppMessage} (hg : GoodMsg m) {line : List Char}
    (hline : jsTrim line ≠ []) :
    GoodMsg { m with content := m.content ++ ' ' :: jsTrim line } := by
  rcases hg with ⟨c0, cs, hc, hcs, hmedia, hmt⟩
  refine ⟨c0, cs ++ [line], ?_, ?_, hmedia, hmt⟩
  · simp [hc]
  · intro l hl
    rcases List.mem_append.1 hl with h | h
    · exact hcs l h
    · have : l = line := by simpa using h
      rw [this]
      exact hline

theorem stepLine_inv {st : ParseState} {l : List Char} (hl : jsTrim l ≠ [])
    (h1 : ∀ m ∈ st.messages, GoodMsg m ∧ m.content ≠ [])
    (h2 : ∀ m, st.currentMessage = some m → GoodMsg m) :
    (∀ m ∈ (stepLine st l).messages, GoodMsg m ∧ m.content ≠ []) ∧
    (∀ m, (stepLine st l).currentMessage = some m → GoodMsg m) := by
  unfold stepLine
  cases classifyLine l with
  | fullTimestamp t d s c =>
    dsimp only
    refine ⟨fun m hm => mem_flushIfContent h1 h2 hm, fun m hm => ?_⟩
    have : m = ⟨parseTimestamp t d, jsTrim s, jsTrim c, checkIfMedia c, none⟩ := by
      simpa using hm.symm
    rw [this]
    exact goodMsg_mk _ _ _
  | timeAndSender t s c =>
    dsimp only
    refine ⟨fun m hm => mem_flushIfContent h1 h2 hm, fun m hm => ?_⟩
    have : m = ⟨parseTimeOnly t st.currentTimestamp, jsTrim s, jsTrim c, checkIfMedia c, none⟩ := by
      simpa using hm.symm
    rw [this]
    exact goodMsg_mk _ _ _
  | senderAndTime s t c =>
    dsimp only
    refine ⟨fun m hm => mem_flushIfContent h1 h2 hm, fun m hm => ?_⟩
    have : m = ⟨parseTimeOnly t st.currentTimestamp, jsTrim s, jsTrim c, checkIfMedia c, none⟩ := by
      simpa using hm.symm
    rw [this]
    exact goodMsg_mk _ _ _
  | timeOnly t c =>
    dsimp only
    refine ⟨fun m hm => mem_flushIfContent h1 h2 hm, fun m hm => ?_⟩
    have : m = ⟨parseTimeOnly t st.currentTimestamp, "Unknown".toList, jsTrim c, checkIfMedia c, none⟩ := by
      simpa using hm.symm
    rw [this]
    exact goodMsg_mk _ _ _
  | noMatch =>
    cases hcur : st.currentMessage with
    | none => exact ⟨h1, by rw [hcur] at h2 ⊢; exact h2⟩
    | some cm =>
      dsimp only
      refine ⟨h1, fun m hm => ?_⟩
      have : m = { cm with content := cm.content ++ ' ' :: jsTrim l } := by
        simpa using hm.symm
      rw [this]
      exact goodMsg_append (h2 cm hcur) hl

theorem foldl_inv : ∀ (lines : List (List Char)) (st : ParseState),
    (∀ l ∈ lines, jsTrim l ≠ []) →
    (∀ m ∈ st.messages, GoodMsg m ∧ m.content ≠ []) →
    (∀ m, st.currentMessage = some m → GoodMsg m) →
    (∀ m ∈ (lines.foldl stepLine st).messages, GoodMsg m ∧ m.content ≠ []) ∧
    (∀ m, (lines.foldl stepLine st).currentMessage = some m → GoodMsg m)
  | [], _, _, h1, h2 => ⟨h1, h2⟩
  | l :: ls, st, hl, h1, h2 => by
    rw [List.foldl_cons]
    have hstep := stepLine_inv (hl l (by simp)) h1 h2
    exact foldl_inv ls (stepLine st l) (fun l' hl' => hl l' (List.mem_cons_of_mem _ hl'))
      hstep.1 hstep.2

theorem mem_parse_good {now : Int} {s : List Char} {m : WhatsAppMessage}
    (hm : m ∈ parseWhatsAppMessages now s) :
    ∃ m0, (GoodMsg m0 ∧ m0.content ≠ []) ∧
      m = (if m0.isMedia then { m0 with mediaType := some (detectMediaType m0.content) } else m0) := by
  unfold parseWhatsAppMessages at hm
  by_cases hg : (jsTrim s).isEmpty = true
  · rw [if_pos hg] at hm
    simp at hm
  · rw [if_neg hg] at hm
    dsimp only at hm
    rcases List.mem_map.1 hm with ⟨m0, hm0, rfl⟩
    have hlines : ∀ l ∈ (splitOnChar '\n' s).filter (fun l => !(jsTrim l).isEmpty),
        jsTrim l ≠ [] := by
      intro l hl
      have h2 := (List.mem_filter.1 hl).2
      simpa [List.isEmpty_iff] using h2
    have hinv := foldl_inv _
      { messages := [], currentMessage := none, currentTimestamp := now }
      hlines (by simp) (by simp)
    exact ⟨m0, mem_flushIfContent hinv.1 hinv.2 hm0, rfl⟩

theorem headNonWs_spec {l : List Char} (h : headNonWs l = true) :
    ∃ c t, l = c :: t ∧ jsWs c = false := by
  cases l with
  | nil => simp [headNonWs] at h
  | cons c t => exact ⟨c, t, rfl, by simpa [headNonWs] using h⟩

theorem revHeadNonWs_spec {l : List Char} (h : headNonWs l.reverse = true) :
    ∃ i d, l = i ++ [d] ∧ jsWs d = false := by
  rcases headNonWs_spec h with ⟨d, t, hrev, hd⟩
  exact ⟨t.reverse, d, by rw [← List.reverse_reverse l, hrev]; simp, hd⟩

theorem postPass_content (m0 : WhatsAppMessage) :
    (if m0.isMedia then { m0 with mediaType := some (detectMediaType m0.content) }
      else m0).content = m0.content := by
  by_cases h : m0.isMedia = true <;> simp [h]

theorem postPass_isMedia (m0 : WhatsAppMessage) :
    (if m0.isMedia then { m0 with mediaType := some (detectMediaType m0.content) }
      else m0).isMedia = m0.isMedia := by
  by_cases h : m0.isMedia = true <;> simp [h]

theorem splitOnChar_of_not_mem {sep : Char} {l : List Char} (h : sep ∉ l) :
    splitOnChar sep l = [l] := by
  induction l with
  | nil => rfl
  | cons c t ih =>
    have hc : ¬(c = sep) := fun hc' => h (by rw [hc']; exact List.mem_cons_self _ _)
    rw [splitOnChar, if_neg hc, ih (fun hm => h (List.mem_cons_of_mem _ hm))]

/-! ## Claim theorems -/

/-- C1 (counterexample): the claim "isMedia is true iff the lowercased final
content contains a media marker, because media classification runs once as a
post-pass" is false: on the input `"[10:30, 1/1/2024] Alice: check"` followed
by the continuation line `"this photo.jpg"`, the single emitted message has
fully assembled content `"check this photo.jpg"`, which contains the media
marker `.jpg`, yet its `isMedia` is `false`, because `checkIfMedia` ran at
match time on the matched line's content `"check"` alone. -/
theorem claim1_counterexample :
    ((parseWhatsAppMessages 0 ("[10:30, 1/1/2024] Alice: check\nthis photo.jpg".toList)).map
        (fun m => (m.content, m.isMedia)))
      = [("check this photo.jpg".toList, false)] ∧
    checkIfMedia ("check this photo.jpg".toList) = true := by
  constructor <;> decide

/-- C1 (amended): `isMedia` is computed once at pattern-match time from the
matched line's content capture, before continuation lines are appended; only
`mediaType` assignment runs as a post-pass.  Hence `isMedia = true` still
implies that the fully assembled content contains a media marker (the matched
line is a prefix of it), but not conversely. -/
theorem claim1_media_flag_from_matched_line (now : Int) (s : List Char)
    (m : WhatsAppMessage) (hm : m ∈ parseWhatsAppMessages now s)
    (hmedia : m.isMedia = true) :
    checkIfMedia m.content = true := by
  rcases mem_parse_good hm with ⟨m0, ⟨hg, _⟩, rfl⟩
  rw [postPass_isMedia] at hmedia
  rw [postPass_content]
  rcases hg with ⟨c0, cs, hc, _, hmedflag, _⟩
  have hck : checkIfMedia c0 = true := by rw [← hmedflag]; exact hmedia
  unfold checkIfMedia at hck ⊢
  rcases List.any_eq_true.1 hck with ⟨ind, hind, hsub⟩
  refine List.any_eq_true.2 ⟨ind, hind, ?_⟩
  have hall : ∀ i ∈ mediaIndicators,
      headNonWs (lowerStr i) = true ∧ headNonWs (lowerStr i).reverse = true := by decide
  rcases hall ind hind with ⟨he1, he2⟩
  rcases (containsSub_iff _ _).1 hsub with ⟨a, b, hab⟩
  have hkeep := jsTrim_keeps_needle (headNonWs_spec he1) (revHeadNonWs_spec he2) ⟨a, b, hab⟩
  rw [jsTrim_lower] at hkeep
  rcases hkeep with ⟨a2, b2, h2⟩
  rw [hc]
  rw [show lowerStr (jsTrim c0 ++ (cs.map (fun l => ' ' :: jsTrim l)).flatten)
      = lowerStr (jsTrim c0) ++ lowerStr (cs.map (fun l => ' ' :: jsTrim l)).flatten from by
    simp [lowerStr]]
  exact containsSub_append_right _ ((containsSub_iff _ _).2 ⟨a2, b2, h2⟩)

/-- C1 (witness): the amended theorem applied to the parse of
`"14:00 photo time"`, whose one message has `isMedia = true`. -/
theorem claim1_witness :
    checkIfMedia (WhatsAppMessage.content
      ⟨jsSetHours 0 14 0, "Unknown".toList, "photo time".toList, true,
        some ("image".toList)⟩) = true :=
  claim1_media_flag_from_matched_line 0 ("14:00 photo time".toList) _ (by decide) (by decide)

/-- C2: `parseWhatsAppMessages` is a total Lean function (it exists as a
structurally recursive `def` over every string and every reference
timestamp), and on input whose trim is empty — in particular the empty
string and whitespace-only strings — it returns the empty sequence. -/
theorem claim2_total_on_blank_input (now : Int) (s : List Char)
    (h : jsTrim s = []) :
    parseWhatsAppMessages now s = [] := by
  unfold parseWhatsAppMessages
  rw [if_pos (by simp [List.isEmpty_iff, h])]

/-- C2 (witness): the theorem applied to a whitespace-only input. -/
theorem claim2_witness :
    jsTrim ("  ".toList) = [] ∧ parseWhatsAppMessages 0 ("  ".toList) = [] :=
  ⟨by decide, claim2_total_on_blank_input 0 _ (by decide)⟩

/-- C3: the four structural patterns are tried in fixed priority order and
the first match determines the message's fields: whenever pattern 1 fails
and pattern 2 succeeds, the classifier commits to pattern 2's fields; and on
`"9:15 Bob: lunch at noon"` — which patterns 2 and 4 both match — the single
emitted message takes pattern 2's fields, sender `Bob` and content
`lunch at noon`. -/
theorem claim3_pattern_priority (now : Int) :
    (∀ (line t s c : List Char), matchPattern1 line = none →
      matchPattern2 line = some (t, s, c) →
      classifyLine line = .timeAndSender t s c) ∧
    matchPattern2 ("9:15 Bob: lunch at noon".toList)
      = some ("9:15".toList, "Bob".toList, "lunch at noon".toList) ∧
    matchPattern4 ("9:15 Bob: lunch at noon".toList)
      = some ("9:15".toList, "Bob: lunch at noon".toList) ∧
    parseWhatsAppMessages now ("9:15 Bob: lunch at noon".toList)
      = [⟨parseTimeOnly ("9:15".toList) now, "Bob".toList, "lunch at noon".toList,
          false, none⟩] := by
  refine ⟨fun line t s c h1 h2 => ?_, by decide, by decide, rfl⟩
  unfold classifyLine
  rw [h1, h2]

/-- C3 (witness): the priority conjunct applied to the concrete ambiguous
line, discharging its hypotheses by evaluation. -/
theorem claim3_witness :
    classifyLine ("9:15 Bob: lunch at noon".toList)
      = LineMatch.timeAndSender ("9:15".toList) ("Bob".toList) ("lunch at noon".toList) :=
  (claim3_pattern_priority 0).1 _ _ _ _ (by decide) (by decide)

/-- C4: time-only resolution overlays the matched hour and minute onto the
calendar day of the rolling reference timestamp with seconds and sub-seconds
zeroed (for any in-range hour and minute, the resolved timestamp lies on the
reference's calendar day and is a whole minute); and on the two consecutive
time-only lines `09:00 msg1`, `23:50 msg2` with reference date 2024-01-01,
both messages resolve onto 2024-01-01 — the reference having been updated to
the previous resolved timestamp after each match — with no midnight rollover
inferred. -/
theorem claim4_rolling_reference_date :
    (∀ (ref : Int) (time hs ms2 : List Char),
      splitOnChar ':' time = [hs, ms2] →
      digitsToNat hs < 24 → digitsToNat ms2 < 60 →
      jsDayNumber (parseTimeOnly time ref) = jsDayNumber ref ∧
        parseTimeOnly time ref % 60000 = 0) ∧
    parseWhatsAppMessages (jsMkDate 2024 0 1 7 45) ("09:00 msg1\n23:50 msg2".toList)
      = [⟨jsMkDate 2024 0 1 9 0, "Unknown".toList, "msg1".toList, false, none⟩,
         ⟨jsMkDate 2024 0 1 23 50, "Unknown".toList, "msg2".toList, false, none⟩] := by
  constructor
  · intro ref time hs ms2 hsplit hh hm
    unfold parseTimeOnly
    rw [hsplit]
    dsimp only [List.getD_cons_zero, List.getD_cons_succ]
    unfold jsSetHours jsDayNumber
    constructor <;> omega
  · decide

/-- C4 (witness): the overlay conjunct applied at a concrete reference. -/
theorem claim4_witness :
    jsDayNumber (parseTimeOnly ("09:00".toList) 12345) = jsDayNumber 12345 ∧
    parseTimeOnly ("09:00".toList) 12345 % 60000 = 0 :=
  claim4_rolling_reference_date.1 12345 ("09:00".toList) ("09".toList) ("00".toList)
    (by decide) (by decide) (by decide)

/-- C5: for every input and every emitted message, `mediaType` is present
if and only if `isMedia` is true. -/
theorem claim5_media_flag_consistency (now : Int) (s : List Char)
    (m : WhatsAppMessage) (hm : m ∈ parseWhatsAppMessages now s) :
    m.mediaType ≠ none ↔ m.isMedia = true := by
  rcases mem_parse_good hm with ⟨m0, ⟨hg, _⟩, rfl⟩
  rcases hg with ⟨_, _, _, _, _, hmt⟩
  by_cases h : m0.isMedia = true <;> simp [h, hmt]

/-- C5 (witness): the theorem applied to a concrete media message. -/
theorem claim5_witness :
    (WhatsAppMessage.mediaType
      ⟨jsSetHours 0 14 0, "Unknown".toList, "photo time".toList, true,
        some ("image".toList)⟩) ≠ none ↔
    (WhatsAppMessage.isMedia
      ⟨jsSetHours 0 14 0, "Unknown".toList, "photo time".toList, true,
        some ("image".toList)⟩) = true :=
  claim5_media_flag_consistency 0 ("14:00 photo time".toList) _ (by decide)

/-- C6: no emitted message has content that is empty after trimming. -/
theorem claim6_no_empty_content (now : Int) (s : List Char)
    (m : WhatsAppMessage) (hm : m ∈ parseWhatsAppMessages now s) :
    jsTrim m.content ≠ [] := by
  rcases mem_parse_good hm with ⟨m0, ⟨hg, hne⟩, rfl⟩
  rw [postPass_content]
  rcases hg with ⟨c0, cs, hc, hcs, _, _⟩
  cases cs with
  | nil =>
    have hc' : m0.content = jsTrim c0 := by simpa using hc
    rw [hc'] at hne ⊢
    rcases jsTrim_head hne with ⟨c, t, heq, hws⟩
    exact jsTrim_ne_nil_of_mem (by rw [heq]; exact List.mem_cons_self _ _) hws
  | cons l ls =>
    have hl : jsTrim l ≠ [] := hcs l (by simp)
    rcases jsTrim_head hl with ⟨c, t, heq, hws⟩
    refine jsTrim_ne_nil_of_mem ?_ hws
    rw [hc]
    refine List.mem_append.2 (Or.inr ?_)
    refine List.mem_flatten.2 ⟨' ' :: jsTrim l, List.mem_map.2 ⟨l, by simp, rfl⟩, ?_⟩
    rw [heq]
    simp

/-- C6 (witness): the theorem applied to a concrete emitted message. -/
theorem claim6_witness :
    jsTrim (WhatsAppMessage.content
      ⟨jsSetHours 0 14 0, "Unknown".toList, "see you later".toList, false, none⟩) ≠ [] :=
  claim6_no_empty_content 0 ("14:00 see you later".toList) _ (by decide)

/-- C7 (counterexample): the claim "the resulting content is itself trimmed"
is false: on input `"12:34 "` (matched content capture empty) followed by the
continuation line `"hello"`, the single emitted message has content
`" hello"`, which carries a leading space and is not equal to its trim. -/
theorem claim7_counterexample :
    (parseWhatsAppMessages 0 ("12:34 \nhello".toList)).map (fun m => m.content)
      = [" hello".toList] ∧
    jsTrim (" hello".toList) ≠ " hello".toList := by
  constructor <;> decide

/-- C7 (amended): every emitted message's content equals the matched line's
content capture trimmed, with each subsequent continuation line's trimmed
text appended separated by a single space; the resulting content is itself
trimmed whenever the matched line's trimmed content capture is nonempty
(when it is empty and continuations follow, the content begins with a single
leading space). -/
theorem claim7_content_accumulation (now : Int) (s : List Char)
    (m : WhatsAppMessage) (hm : m ∈ parseWhatsAppMessages now s) :
    ∃ (c0 : List Char) (cs : List (List Char)),
      m.content = jsTrim c0 ++ (cs.map (fun l => ' ' :: jsTrim l)).flatten
      ∧ (∀ l ∈ cs, jsTrim l ≠ [])
      ∧ (jsTrim c0 ≠ [] → jsTrim m.content = m.content) := by
  rcases mem_parse_good hm with ⟨m0, ⟨hg, hne⟩, rfl⟩
  rw [postPass_content]
  rcases hg with ⟨c0, cs, hc, hcs, _, _⟩
  refine ⟨c0, cs, hc, hcs, fun ht => ?_⟩
  apply jsTrim_eq_self
  · rcases jsTrim_head ht with ⟨c, t, heq, hws⟩
    exact ⟨c, t ++ (cs.map (fun l => ' ' :: jsTrim l)).flatten, by rw [hc, heq]; simp, hws⟩
  · rcases List.eq_nil_or_concat cs with hnil | ⟨cs2, lk, hconc⟩
    · subst hnil
      rcases jsTrim_last ht with ⟨i, d, heq, hws⟩
      exact ⟨i, d, by rw [hc, heq]; simp, hws⟩
    · have hlk : jsTrim lk ≠ [] := hcs lk (by rw [hconc]; simp)
      rcases jsTrim_last hlk with ⟨i, d, heq, hws⟩
      refine ⟨jsTrim c0 ++ ((cs2.map (fun l => ' ' :: jsTrim l)).flatten ++ ' ' :: i), d,
        ?_, hws⟩
      rw [hc, hconc, List.concat_eq_append]
      simp [heq]

/-- C7 (witness): the amended theorem applied to the message emitted for
`"[10:30, 1/1/2024] Alice: Hello"` with continuation `"how are you"`. -/
theorem claim7_witness :
    ∃ (c0 : List Char) (cs : List (List Char)),
      (WhatsAppMessage.content
        ⟨jsMkDate 2024 0 1 10 30, "Alice".toList, "Hello how are you".toList, false, none⟩)
        = jsTrim c0 ++ (cs.map (fun l => ' ' :: jsTrim l)).flatten
      ∧ (∀ l ∈ cs, jsTrim l ≠ [])
      ∧ (jsTrim c0 ≠ [] →
          jsTrim (WhatsAppMessage.content
            ⟨jsMkDate 2024 0 1 10 30, "Alice".toList, "Hello how are you".toList,
              false, none⟩)
          = (WhatsAppMessage.content
            ⟨jsMkDate 2024 0 1 10 30, "Alice".toList, "Hello how are you".toList,
              false, none⟩)) :=
  claim7_content_accumulation 0 ("[10:30, 1/1/2024] Alice: Hello\nhow are you".toList) _
    (by decide)

/-- C8 (counterexample): the claim "the timestamp is built from the literal
year (no two-digit-year expansion)" is false: the date capture `1/1/0099`
resolves to the year 1999, not 99, because the platform's date constructor
offsets year arguments between 0 and 99 by 1900. -/
theorem claim8_counterexample :
    parseTimestamp ("10:30".toList) ("1/1/0099".toList)
      = specResolveFullLiteralYear 1999 1 1 10 30 ∧
    specResolveFullLiteralYear 1999 1 1 10 30 ≠ specResolveFullLiteralYear 99 1 1 10 30 := by
  constructor <;> decide

/-- C8 (amended): full-timestamp resolution passes the parsed components
through `new Date(year, month - 1, day, hours, minutes)` without validation
and without crashing, so overflow semantics are the platform's (month 13
rolls into January of the next year); the year is taken literally whenever
it is at least 100 (years 0–99 are offset by 1900 by the platform's date
constructor), the day is 1-based and the month is converted from 1-based
input to the 0-based library convention. -/
theorem claim8_timestamp_resolution :
    (∀ (time date hs ms2 ds mos ys : List Char),
      splitOnChar ':' time = [hs, ms2] →
      splitOnChar '/' date = [ds, mos, ys] →
      100 ≤ digitsToNat ys →
      parseTimestamp time date
        = specResolveFullLiteralYear (digitsToNat ys) (digitsToNat mos) (digitsToNat ds)
            (digitsToNat hs) (digitsToNat ms2)) ∧
    parseTimestamp ("10:30".toList) ("1/13/2024".toList)
      = parseTimestamp ("10:30".toList) ("1/1/2025".toList) := by
  constructor
  · intro time date hs ms2 ds mos ys h1 h2 hy
    unfold parseTimestamp specResolveFullLiteralYear jsMkDate
    rw [h1, h2]
    dsimp only [List.getD_cons_zero, List.getD_cons_succ]
    rw [if_neg (by omega)]
  · decide

/-- C8 (witness): the refinement conjunct applied to a concrete in-range
date. -/
theorem claim8_witness :
    parseTimestamp ("10:30".toList) ("1/1/2024".toList)
      = specResolveFullLiteralYear 2024 1 1 10 30 :=
  claim8_timestamp_resolution.1 ("10:30".toList) ("1/1/2024".toList) ("10".toList)
    ("30".toList) ("1".toList) ("1".toList) ("2024".toList) (by decide) (by decide)
    (by decide)

/-- C9: a line that matches none of the first three patterns but matches the
time-only pattern (and has nonempty trimmed content capture) produces, as a
whole input, exactly one message whose sender is `Unknown`, whose content is
the trimmed capture, and whose timestamp resolves the matched time against
the reference. -/
theorem claim9_time_only_unknown_sender (now : Int) (line t c : List Char)
    (h1 : matchPattern1 line = none) (h2 : matchPattern2 line = none)
    (h3 : matchPattern3 line = none) (h4 : matchPattern4 line = some (t, c))
    (hnl : '\n' ∉ line) (htrim : jsTrim line ≠ []) (hcontent : jsTrim c ≠ []) :
    ∃ m, parseWhatsAppMessages now line = [m] ∧ m.sender = "Unknown".toList ∧
      m.content = jsTrim c ∧ m.timestamp = parseTimeOnly t now := by
  have hclass : classifyLine line = .timeOnly t c := by
    unfold classifyLine
    rw [h1, h2, h3, h4]
  have hstep : stepLine { messages := [], currentMessage := none, currentTimestamp := now } line
      = { messages := [],
          currentMessage := some
            ⟨parseTimeOnly t now, "Unknown".toList, jsTrim c, checkIfMedia c, none⟩,
          currentTimestamp := parseTimeOnly t now } := by
    unfold stepLine
    rw [hclass]
    rfl
  have hlines : (splitOnChar '\n' line).filter (fun l => !(jsTrim l).isEmpty) = [line] := by
    rw [splitOnChar_of_not_mem hnl, List.filter_cons,
      if_pos (by simp [List.isEmpty_iff, htrim])]
    rfl
  unfold parseWhatsAppMessages
  rw [if_neg (by simp [List.isEmpty_iff, htrim])]
  dsimp only
  rw [hlines, List.foldl_cons, List.foldl_nil, hstep]
  unfold flushIfContent
  dsimp only
  rw [if_neg (by simp [List.isEmpty_iff, hcontent])]
  refine ⟨if checkIfMedia c = true then
      ⟨parseTimeOnly t now, "Unknown".toList, jsTrim c, checkIfMedia c,
        some (detectMediaType (jsTrim c))⟩
    else ⟨parseTimeOnly t now, "Unknown".toList, jsTrim c, checkIfMedia c, none⟩,
    ?_, ?_, ?_, ?_⟩ <;> by_cases hmed : checkIfMedia c = true <;> simp [hmed]

/-- C9 (witness): the theorem applied to `"14:00 see you later"`, which
matches only the time-only pattern; its one message has sender `Unknown`. -/
theorem claim9_witness :
    ∃ m, parseWhatsAppMessages 0 ("14:00 see you later".toList) = [m] ∧
      m.sender = "Unknown".toList ∧ m.content = jsTrim ("see you later".toList) ∧
      m.timestamp = parseTimeOnly ("14:00".toList) 0 :=
  claim9_time_only_unknown_sender 0 ("14:00 see you later".toList) ("14:00".toList)
    ("see you later".toList) (by decide) (by decide) (by decide) (by decide) (by decide)
    (by decide) (by decide)

/-- C10: `filterMessagesByTime` returns exactly the messages whose timestamp
`t` satisfies `start ≤ t` and `t ≤ end` — both endpoints inclusive — in their
original relative order (a sublist of the input), with each retained message
unchanged. -/
theorem claim10_filter_by_time (msgs : List WhatsAppMessage) (s e : Int) :
    (filterMessagesByTime msgs s e).Sublist msgs ∧
    ∀ m ∈ msgs, (m ∈ filterMessagesByTime msgs s e ↔ s ≤ m.timestamp ∧ m.timestamp ≤ e) := by
  refine ⟨List.filter_sublist msgs, fun m hm => ?_⟩
  unfold filterMessagesByTime
  rw [List.mem_filter]
  simp [hm]

/-- C10 (witness): the theorem applied to a concrete one-message list and an
interval containing its timestamp. -/
theorem claim10_witness :
    (filterMessagesByTime [⟨5, "a".toList, "b".toList, false, none⟩] 0 10).Sublist
      [⟨5, "a".toList, "b".toList, false, none⟩] ∧
    ((⟨5, "a".toList, "b".toList, false, none⟩ : WhatsAppMessage) ∈
      filterMessagesByTime [⟨5, "a".toList, "b".toList, false, none⟩] 0 10 ↔
      (0 : Int) ≤ (5 : Int) ∧ (5 : Int) ≤ 10) :=
  ⟨(claim10_filter_by_time _ 0 10).1,
   (claim10_filter_by_time [⟨5, "a".toList, "b".toList, false, none⟩] 0 10).2 _ (by decide)⟩
